import Mathlib

/-!
Verification of the mortgage amortization core: the fixed-payment
calculator, the amortization schedule generator, and the summary
reducer. Numbers are modelled as exact rationals; the source's
arithmetic (IEEE doubles) is idealized as exact field arithmetic, so
every identity proved here holds up to floating-point rounding in the
running program.
-/

namespace MortgageExplorer

/-- Loan parameters, mirroring the MortgageInputs interface.  The start
date is modelled as an integer month index; calendar normalization of
JavaScript dates is order-isomorphic to integer month arithmetic. -/
structure MortgageInputs where
  principal : ℚ
  annualRate : ℚ
  termMonths : ℕ
  startDate : ℤ
  extraMonthlyPayment : ℚ

/-- One row of the amortization ledger, mirroring the PaymentRow interface. -/
structure PaymentRow where
  month : ℕ
  date : ℤ
  basePayment : ℚ
  extraPayment : ℚ
  totalPayment : ℚ
  principalPaid : ℚ
  interestPaid : ℚ
  remainingBalance : ℚ

/-- Scenario override, mirroring the ScenarioOverride interface.  The
sparse month-to-amount map is modelled as a total function with default
0, matching the source's lookup with a 0 fallback. -/
structure ScenarioOverride where
  extraMonthlyPrincipal : ℚ
  lumpSumPayments : ℕ → ℚ

/-- Summary statistics, mirroring the ScenarioSummary interface. -/
structure ScenarioSummary where
  totalInterestPaid : ℚ
  totalPaid : ℚ
  monthsToPayoff : ℕ
  interestSaved : ℚ
  monthsSaved : ℤ

/-- The fixed monthly payment, translated from calculateMonthlyPayment. -/
def calculateMonthlyPayment (principal annualRate : ℚ) (termMonths : ℕ) : ℚ :=
  let monthlyRate := annualRate / 100 / 12
  if monthlyRate = 0 then
    principal / termMonths
  else
    let numerator := monthlyRate * (1 + monthlyRate) ^ termMonths
    let denominator := (1 + monthlyRate) ^ termMonths - 1
    principal * (numerator / denominator)

/-- The extra principal requested for a given month: the override's
recurring extra plus its lump sum for that month, each defaulting to 0
when the override (or the entry) is absent, as in the loop body of
generateAmortizationSchedule. -/
def requestedExtra (overrides : Option ScenarioOverride) (month : ℕ) : ℚ :=
  (match overrides with
   | some o => o.extraMonthlyPrincipal
   | none => 0) +
  (match overrides with
   | some o => o.lumpSumPayments month
   | none => 0)

/-- One iteration of the generator loop body: the emitted row, given the
balance at the start of the month.  Field for field the body of
generateAmortizationSchedule. -/
def stepRow (monthlyRate basePayment extraMonthlyPayment : ℚ)
    (overrides : Option ScenarioOverride) (startDate : ℤ)
    (month : ℕ) (bal : ℚ) : PaymentRow :=
  let interestPaid := bal * monthlyRate
  let tentative := basePayment - interestPaid
  let principalPaid := min (tentative + requestedExtra overrides month) bal
  let actualExtra := principalPaid - tentative
  { month := month
    date := startDate + ((month : ℤ) - 1)
    basePayment := basePayment
    extraPayment := actualExtra
    totalPayment := basePayment + actualExtra + extraMonthlyPayment
    principalPaid := principalPaid
    interestPaid := interestPaid
    remainingBalance := max 0 (bal - principalPaid) }

/-- The running balance after one iteration of the generator loop
(before the clamp-to-zero used only for the stored field). -/
def stepBal (monthlyRate basePayment : ℚ) (overrides : Option ScenarioOverride)
    (month : ℕ) (bal : ℚ) : ℚ :=
  bal - min (basePayment - bal * monthlyRate + requestedExtra overrides month) bal

/-- The generator loop of generateAmortizationSchedule: iterate while
months remain and the balance exceeds the 0.01 epsilon, emitting a row
per month and stopping right after a row whose new balance is at most
the epsilon. -/
def generateAux (monthlyRate basePayment extraMonthlyPayment : ℚ)
    (overrides : Option ScenarioOverride) (startDate : ℤ) :
    ℕ → ℕ → ℚ → List PaymentRow
  | _, 0, _ => []
  | month, fuel + 1, bal =>
    if bal > 0.01 then
      stepRow monthlyRate basePayment extraMonthlyPayment overrides startDate month bal ::
        (if stepBal monthlyRate basePayment overrides month bal ≤ 0.01 then []
         else
           generateAux monthlyRate basePayment extraMonthlyPayment overrides startDate
             (month + 1) fuel (stepBal monthlyRate basePayment overrides month bal))
    else []

/-- Full amortization schedule, translated from generateAmortizationSchedule. -/
def generateAmortizationSchedule (inputs : MortgageInputs)
    (overrides : Option ScenarioOverride) : List PaymentRow :=
  generateAux (inputs.annualRate / 100 / 12)
    (calculateMonthlyPayment inputs.principal inputs.annualRate inputs.termMonths)
    inputs.extraMonthlyPayment overrides inputs.startDate 1 inputs.termMonths
    inputs.principal

/-- Summary statistics, translated from calculateSummary. -/
def calculateSummary (schedule : List PaymentRow)
    (baseSchedule : Option (List PaymentRow)) : ScenarioSummary :=
  let totalInterestPaid := schedule.foldl (fun sum row => sum + row.interestPaid) 0
  let totalPaid := schedule.foldl (fun sum row => sum + row.totalPayment) 0
  let monthsToPayoff := schedule.length
  match baseSchedule with
  | some base =>
      { totalInterestPaid := totalInterestPaid
        totalPaid := totalPaid
        monthsToPayoff := monthsToPayoff
        interestSaved :=
          base.foldl (fun sum row => sum + row.interestPaid) 0 - totalInterestPaid
        monthsSaved := (base.length : ℤ) - (monthsToPayoff : ℤ) }
  | none =>
      { totalInterestPaid := totalInterestPaid
        totalPaid := totalPaid
        monthsToPayoff := monthsToPayoff
        interestSaved := 0
        monthsSaved := 0 }

/-- An all-zero row, used only as the out-of-range default for indexing. -/
def defaultRow : PaymentRow :=
  { month := 0, date := 0, basePayment := 0, extraPayment := 0, totalPayment := 0
    principalPaid := 0, interestPaid := 0, remainingBalance := 0 }

/-- Row of a schedule at a 0-based index (default row when out of range). -/
def rowAt (schedule : List PaymentRow) (i : ℕ) : PaymentRow :=
  schedule.getD i defaultRow

/-- Balance standing before the payment of the row at 0-based index i:
the principal for the first row, else the previous row's stored balance. -/
def balBefore : ℚ → List PaymentRow → ℕ → ℚ
  | P, _, 0 => P
  | P, [], _ + 1 => P
  | _, row :: rest, i + 1 => balBefore row.remainingBalance rest i

/-- Balance stored on the last row of a schedule (the principal itself
for an empty schedule). -/
def finalBalance (P : ℚ) (schedule : List PaymentRow) : ℚ :=
  (schedule.map PaymentRow.remainingBalance).getLastD P

/-- The running balance of the base scenario (no override, no clamping):
each month the balance accrues one month of interest and the fixed
payment is subtracted. -/
def exactBal (monthlyRate basePayment principal : ℚ) : ℕ → ℚ
  | 0 => principal
  | k + 1 => exactBal monthlyRate basePayment principal k * (1 + monthlyRate) - basePayment

/-- Modelled from the spec: the payment formula exactly as the spec
states it, P / N at zero monthly rate and otherwise
P · [r(1+r)^N] / [(1+r)^N − 1], for comparison with the source's
calculateMonthlyPayment. -/
def specMonthlyPayment (P R : ℚ) (N : ℕ) : ℚ :=
  let r := R / 100 / 12
  if r = 0 then P / N
  else P * (r * (1 + r) ^ N) / ((1 + r) ^ N - 1)

/-- The concrete what-if override of the spec's payoff scenario: no
recurring extra, a single 400000 lump sum at month 1. -/
def lumpOverride : ScenarioOverride :=
  { extraMonthlyPrincipal := 0
    lumpSumPayments := fun m => if m = 1 then 400000 else 0 }

/-- The schedule of the concrete payoff scenario: the 300000 / 6.5% /
360-month loan with the 400000 lump sum at month 1. -/
def lumpSchedule (sd : ℤ) (ec : ℚ) : List PaymentRow :=
  generateAmortizationSchedule
    { principal := 300000, annualRate := 6.5, termMonths := 360,
      startDate := sd, extraMonthlyPayment := ec } (some lumpOverride)

/-! ### Basic facts about the loop body -/

theorem requestedExtra_none (m : ℕ) : requestedExtra none m = 0 := by
  simp [requestedExtra]

theorem requestedExtra_some (o : ScenarioOverride) (m : ℕ) :
    requestedExtra (some o) m = o.extraMonthlyPrincipal + o.lumpSumPayments m := rfl

theorem stepRow_month (r p ec : ℚ) (ov : Option ScenarioOverride) (sd : ℤ)
    (m : ℕ) (bal : ℚ) : (stepRow r p ec ov sd m bal).month = m := rfl

theorem stepRow_basePayment (r p ec : ℚ) (ov : Option ScenarioOverride) (sd : ℤ)
    (m : ℕ) (bal : ℚ) : (stepRow r p ec ov sd m bal).basePayment = p := rfl

theorem stepRow_interestPaid (r p ec : ℚ) (ov : Option ScenarioOverride) (sd : ℤ)
    (m : ℕ) (bal : ℚ) : (stepRow r p ec ov sd m bal).interestPaid = bal * r := rfl

theorem stepRow_principalPaid (r p ec : ℚ) (ov : Option ScenarioOverride) (sd : ℤ)
    (m : ℕ) (bal : ℚ) :
    (stepRow r p ec ov sd m bal).principalPaid =
      min (p - bal * r + requestedExtra ov m) bal := rfl

theorem stepRow_extraPayment (r p ec : ℚ) (ov : Option ScenarioOverride) (sd : ℤ)
    (m : ℕ) (bal : ℚ) :
    (stepRow r p ec ov sd m bal).extraPayment =
      min (p - bal * r + requestedExtra ov m) bal - (p - bal * r) := rfl

theorem stepRow_totalPayment (r p ec : ℚ) (ov : Option ScenarioOverride) (sd : ℤ)
    (m : ℕ) (bal : ℚ) :
    (stepRow r p ec ov sd m bal).totalPayment =
      p + (min (p - bal * r + requestedExtra ov m) bal - (p - bal * r)) + ec := rfl

theorem stepRow_remainingBalance (r p ec : ℚ) (ov : Option ScenarioOverride) (sd : ℤ)
    (m : ℕ) (bal : ℚ) :
    (stepRow r p ec ov sd m bal).remainingBalance =
      max 0 (bal - min (p - bal * r + requestedExtra ov m) bal) := rfl

theorem stepBal_nonneg (r p : ℚ) (ov : Option ScenarioOverride) (m : ℕ) (bal : ℚ) :
    0 ≤ stepBal r p ov m bal :=
  sub_nonneg.mpr (min_le_right _ _)

theorem stepRow_remaining_eq_stepBal (r p ec : ℚ) (ov : Option ScenarioOverride)
    (sd : ℤ) (m : ℕ) (bal : ℚ) :
    (stepRow r p ec ov sd m bal).remainingBalance = stepBal r p ov m bal := by
  rw [stepRow_remainingBalance]
  exact max_eq_right (stepBal_nonneg r p ov m bal)

theorem stepRow_principal_eq (r p ec : ℚ) (ov : Option ScenarioOverride)
    (sd : ℤ) (m : ℕ) (bal : ℚ) :
    (stepRow r p ec ov sd m bal).principalPaid = bal - stepBal r p ov m bal := by
  rw [stepRow_principalPaid, stepBal]
  ring

theorem stepBal_eq_max (r p : ℚ) (ov : Option ScenarioOverride) (m : ℕ) (bal : ℚ) :
    stepBal r p ov m bal = max (bal * (1 + r) - (p + requestedExtra ov m)) 0 := by
  rw [stepBal]
  rcases le_total (p - bal * r + requestedExtra ov m) bal with h | h
  · rw [min_eq_left h, max_eq_left (by nlinarith)]
    ring
  · rw [min_eq_right h, max_eq_right (by nlinarith)]
    ring

/-! ### Basic facts about the generator loop -/

theorem generateAux_zero (r p ec : ℚ) (ov : Option ScenarioOverride) (sd : ℤ)
    (m : ℕ) (bal : ℚ) : generateAux r p ec ov sd m 0 bal = [] := rfl

theorem generateAux_succ (r p ec : ℚ) (ov : Option ScenarioOverride) (sd : ℤ)
    (m fuel : ℕ) (bal : ℚ) :
    generateAux r p ec ov sd m (fuel + 1) bal =
      if bal > 0.01 then
        stepRow r p ec ov sd m bal ::
          (if stepBal r p ov m bal ≤ 0.01 then []
           else generateAux r p ec ov sd (m + 1) fuel (stepBal r p ov m bal))
      else [] := rfl

theorem generateAux_of_le (r p ec : ℚ) (ov : Option ScenarioOverride) (sd : ℤ)
    (m fuel : ℕ) (bal : ℚ) (h : bal ≤ 0.01) :
    generateAux r p ec ov sd m fuel bal = [] := by
  cases fuel with
  | zero => rfl
  | succ f => rw [generateAux_succ, if_neg (not_lt.mpr h)]

theorem generateAux_cons (r p ec : ℚ) (ov : Option ScenarioOverride) (sd : ℤ)
    (m fuel : ℕ) (bal : ℚ) (h : (0.01 : ℚ) < bal) :
    generateAux r p ec ov sd m (fuel + 1) bal =
      stepRow r p ec ov sd m bal ::
        generateAux r p ec ov sd (m + 1) fuel (stepBal r p ov m bal) := by
  rw [generateAux_succ, if_pos h]
  by_cases hb : stepBal r p ov m bal ≤ 0.01
  · rw [if_pos hb, generateAux_of_le r p ec ov sd (m + 1) fuel _ hb]
  · rw [if_neg hb]

theorem generateAux_length_le (r p ec : ℚ) (ov : Option ScenarioOverride) (sd : ℤ) :
    ∀ (fuel m : ℕ) (bal : ℚ), (generateAux r p ec ov sd m fuel bal).length ≤ fuel := by
  intro fuel
  induction fuel with
  | zero => intro m bal; rw [generateAux_zero]; exact Nat.le_refl 0
  | succ f ih =>
      intro m bal
      by_cases h : (0.01 : ℚ) < bal
      · rw [generateAux_cons r p ec ov sd m f bal h, List.length_cons]
        exact Nat.succ_le_succ (ih (m + 1) _)
      · rw [generateAux_of_le r p ec ov sd m (f + 1) bal (not_lt.mp h)]
        exact Nat.zero_le _

/-! ### Indexing helpers -/

theorem rowAt_cons_zero (row : PaymentRow) (rest : List PaymentRow) :
    rowAt (row :: rest) 0 = row := rfl

theorem rowAt_cons_succ (row : PaymentRow) (rest : List PaymentRow) (i : ℕ) :
    rowAt (row :: rest) (i + 1) = rowAt rest i := rfl

theorem balBefore_zero (P : ℚ) (S : List PaymentRow) : balBefore P S 0 = P := by
  cases S <;> rfl

theorem balBefore_cons_succ (P : ℚ) (row : PaymentRow) (rest : List PaymentRow)
    (i : ℕ) :
    balBefore P (row :: rest) (i + 1) = balBefore row.remainingBalance rest i := rfl

/-! ### The per-row invariants of the generator loop -/

theorem generateAux_rows (r p ec : ℚ) (ov : Option ScenarioOverride) (sd : ℤ) :
    ∀ (fuel m : ℕ) (bal : ℚ) (i : ℕ),
      i < (generateAux r p ec ov sd m fuel bal).length →
      (rowAt (generateAux r p ec ov sd m fuel bal) i).basePayment = p ∧
      (rowAt (generateAux r p ec ov sd m fuel bal) i).month = m + i ∧
      (rowAt (generateAux r p ec ov sd m fuel bal) i).interestPaid =
        balBefore bal (generateAux r p ec ov sd m fuel bal) i * r ∧
      (rowAt (generateAux r p ec ov sd m fuel bal) i).principalPaid =
        min ((rowAt (generateAux r p ec ov sd m fuel bal) i).basePayment -
              (rowAt (generateAux r p ec ov sd m fuel bal) i).interestPaid +
              requestedExtra ov (m + i))
          (balBefore bal (generateAux r p ec ov sd m fuel bal) i) ∧
      (rowAt (generateAux r p ec ov sd m fuel bal) i).extraPayment =
        (rowAt (generateAux r p ec ov sd m fuel bal) i).principalPaid -
          ((rowAt (generateAux r p ec ov sd m fuel bal) i).basePayment -
            (rowAt (generateAux r p ec ov sd m fuel bal) i).interestPaid) ∧
      (rowAt (generateAux r p ec ov sd m fuel bal) i).remainingBalance =
        balBefore bal (generateAux r p ec ov sd m fuel bal) i -
          (rowAt (generateAux r p ec ov sd m fuel bal) i).principalPaid ∧
      0 ≤ (rowAt (generateAux r p ec ov sd m fuel bal) i).remainingBalance := by
  intro fuel
  induction fuel with
  | zero =>
      intro m bal i hi
      rw [generateAux_zero] at hi
      exact absurd hi (Nat.not_lt_zero i)
  | succ f ih =>
      intro m bal i hi
      by_cases h : (0.01 : ℚ) < bal
      · rw [generateAux_cons r p ec ov sd m f bal h] at hi ⊢
        cases i with
        | zero =>
            rw [rowAt_cons_zero, balBefore_zero]
            refine ⟨stepRow_basePayment r p ec ov sd m bal, ?_, stepRow_interestPaid r p ec ov sd m bal, ?_, ?_, ?_, ?_⟩
            · rw [stepRow_month]; omega
            · rw [stepRow_principalPaid, stepRow_basePayment, stepRow_interestPaid,
                Nat.add_zero]
            · rw [stepRow_extraPayment, stepRow_principalPaid, stepRow_basePayment,
                stepRow_interestPaid]
            · rw [stepRow_remaining_eq_stepBal, stepRow_principalPaid, stepBal]
            · rw [stepRow_remaining_eq_stepBal]
              exact stepBal_nonneg r p ov m bal
        | succ j =>
            rw [List.length_cons, Nat.succ_lt_succ_iff] at hi
            have h1 := ih (m + 1) (stepBal r p ov m bal) j hi
            rw [rowAt_cons_succ, balBefore_cons_succ, stepRow_remaining_eq_stepBal]
            have hm : m + 1 + j = m + (j + 1) := by omega
            rw [hm] at h1
            exact h1
      · rw [generateAux_of_le r p ec ov sd m (f + 1) bal (not_lt.mp h)] at hi
        exact absurd hi (Nat.not_lt_zero i)

/-- On every emitted row except the last one, the requested extra was
absorbed in full: the stored extraPayment equals the requested extra. -/
theorem generateAux_extra_unclamped (r p ec : ℚ) (ov : Option ScenarioOverride)
    (sd : ℤ) :
    ∀ (fuel m : ℕ) (bal : ℚ) (i : ℕ),
      i + 1 < (generateAux r p ec ov sd m fuel bal).length →
      (rowAt (generateAux r p ec ov sd m fuel bal) i).extraPayment =
        requestedExtra ov (m + i) := by
  intro fuel
  induction fuel with
  | zero =>
      intro m bal i hi
      rw [generateAux_zero] at hi
      exact absurd hi (Nat.not_lt_zero _)
  | succ f ih =>
      intro m bal i hi
      by_cases h : (0.01 : ℚ) < bal
      · rw [generateAux_cons r p ec ov sd m f bal h] at hi ⊢
        have htail : (0.01 : ℚ) < stepBal r p ov m bal := by
          by_contra hb
          rw [List.length_cons,
            generateAux_of_le r p ec ov sd (m + 1) f _ (not_lt.mp hb)] at hi
          simp at hi
        cases i with
        | zero =>
            rw [rowAt_cons_zero, stepRow_extraPayment]
            have hmin : min (p - bal * r + requestedExtra ov m) bal =
                p - bal * r + requestedExtra ov m := by
              rcases min_cases (p - bal * r + requestedExtra ov m) bal with hc | hc
              · exact hc.1
              · exfalso
                have : stepBal r p ov m bal = 0 := by
                  rw [stepBal, hc.1]; ring
                rw [this] at htail
                norm_num at htail
            rw [hmin]
            ring
        | succ j =>
            rw [List.length_cons, Nat.succ_lt_succ_iff] at hi
            have h1 := ih (m + 1) (stepBal r p ov m bal) j hi
            rw [rowAt_cons_succ]
            have hm : m + 1 + j = m + (j + 1) := by omega
            rw [hm] at h1
            exact h1
      · rw [generateAux_of_le r p ec ov sd m (f + 1) bal (not_lt.mp h)] at hi
        exact absurd hi (Nat.not_lt_zero _)

/-! ### Early termination -/

theorem generateAux_length_lt_iff (r p ec : ℚ) (ov : Option ScenarioOverride)
    (sd : ℤ) :
    ∀ (fuel m : ℕ) (bal : ℚ),
      (generateAux r p ec ov sd m fuel bal).length < fuel ↔
        ∃ b ∈ (bal :: (generateAux r p ec ov sd m fuel bal).map
            PaymentRow.remainingBalance).take fuel, b ≤ 0.01 := by
  intro fuel
  induction fuel with
  | zero =>
      intro m bal
      rw [generateAux_zero]
      simp
  | succ f ih =>
      intro m bal
      by_cases h : (0.01 : ℚ) < bal
      · rw [generateAux_cons r p ec ov sd m f bal h, List.length_cons,
          Nat.succ_lt_succ_iff, List.map_cons, List.take_succ_cons,
          stepRow_remaining_eq_stepBal]
        constructor
        · intro hl
          rcases (ih (m + 1) (stepBal r p ov m bal)).mp hl with ⟨b, hb, hble⟩
          exact ⟨b, List.mem_cons_of_mem bal hb, hble⟩
        · rintro ⟨b, hb, hble⟩
          rcases List.mem_cons.mp hb with rfl | hb
          · exact absurd hble (not_le.mpr h)
          · exact (ih (m + 1) (stepBal r p ov m bal)).mpr ⟨b, hb, hble⟩
      · rw [generateAux_of_le r p ec ov sd m (f + 1) bal (not_lt.mp h)]
        constructor
        · intro _
          exact ⟨bal, by simp, not_lt.mp h⟩
        · intro _
          simp

/-! ### Telescoping of principal payments -/

theorem finalBalance_cons (P : ℚ) (row : PaymentRow) (rest : List PaymentRow) :
    finalBalance P (row :: rest) = finalBalance row.remainingBalance rest := by
  rw [finalBalance, finalBalance, List.map_cons, List.getLastD_cons]

theorem generateAux_sum_principal (r p ec : ℚ) (ov : Option ScenarioOverride)
    (sd : ℤ) :
    ∀ (fuel m : ℕ) (bal : ℚ),
      ((generateAux r p ec ov sd m fuel bal).map PaymentRow.principalPaid).sum =
        bal - finalBalance bal (generateAux r p ec ov sd m fuel bal) := by
  intro fuel
  induction fuel with
  | zero =>
      intro m bal
      rw [generateAux_zero]
      simp [finalBalance]
  | succ f ih =>
      intro m bal
      by_cases h : (0.01 : ℚ) < bal
      · rw [generateAux_cons r p ec ov sd m f bal h, List.map_cons, List.sum_cons,
          finalBalance_cons, stepRow_remaining_eq_stepBal, stepRow_principal_eq,
          ih (m + 1) (stepBal r p ov m bal)]
        ring
      · rw [generateAux_of_le r p ec ov sd m (f + 1) bal (not_lt.mp h)]
        simp [finalBalance]

/-! ### Folds of calculateSummary as sums -/

theorem foldl_add_map (f : PaymentRow → ℚ) :
    ∀ (l : List PaymentRow) (a : ℚ),
      l.foldl (fun sum row => sum + f row) a = a + (l.map f).sum := by
  intro l
  induction l with
  | nil => intro a; simp
  | cons row rest ih =>
      intro a
      rw [List.foldl_cons, ih, List.map_cons, List.sum_cons]
      ring

/-! ### Monotonicity: paying more extra principal never lengthens the
schedule and never increases total interest -/

theorem stepBal_mono (r p : ℚ) (hr : 0 ≤ r) (ov₁ ov₂ : Option ScenarioOverride)
    (m : ℕ) (c b : ℚ) (hcb : c ≤ b)
    (he : requestedExtra ov₂ m ≤ requestedExtra ov₁ m) :
    stepBal r p ov₁ m c ≤ stepBal r p ov₂ m b := by
  rw [stepBal_eq_max, stepBal_eq_max]
  refine max_le_max (sub_le_sub ?_ ?_) le_rfl
  · exact mul_le_mul_of_nonneg_right hcb (by linarith)
  · exact add_le_add_left he p

theorem generateAux_length_mono (r p : ℚ) (hr : 0 ≤ r) (ec₁ ec₂ : ℚ)
    (ov₁ ov₂ : Option ScenarioOverride) (sd : ℤ)
    (he : ∀ m, requestedExtra ov₂ m ≤ requestedExtra ov₁ m) :
    ∀ (fuel m : ℕ) (c b : ℚ), c ≤ b →
      (generateAux r p ec₁ ov₁ sd m fuel c).length ≤
        (generateAux r p ec₂ ov₂ sd m fuel b).length := by
  intro fuel
  induction fuel with
  | zero =>
      intro m c b _
      rw [generateAux_zero, generateAux_zero]
  | succ f ih =>
      intro m c b hcb
      by_cases hc : (0.01 : ℚ) < c
      · have hb : (0.01 : ℚ) < b := lt_of_lt_of_le hc hcb
        rw [generateAux_cons r p ec₁ ov₁ sd m f c hc,
          generateAux_cons r p ec₂ ov₂ sd m f b hb, List.length_cons,
          List.length_cons]
        exact Nat.succ_le_succ
          (ih (m + 1) _ _ (stepBal_mono r p hr ov₁ ov₂ m c b hcb (he m)))
      · rw [generateAux_of_le r p ec₁ ov₁ sd m (f + 1) c (not_lt.mp hc)]
        exact Nat.zero_le _

theorem generateAux_interest_nonneg (r p ec : ℚ) (hr : 0 ≤ r)
    (ov : Option ScenarioOverride) (sd : ℤ) :
    ∀ (fuel m : ℕ) (bal : ℚ),
      0 ≤ ((generateAux r p ec ov sd m fuel bal).map PaymentRow.interestPaid).sum := by
  intro fuel
  induction fuel with
  | zero =>
      intro m bal
      rw [generateAux_zero]
      simp
  | succ f ih =>
      intro m bal
      by_cases h : (0.01 : ℚ) < bal
      · rw [generateAux_cons r p ec ov sd m f bal h, List.map_cons, List.sum_cons,
          stepRow_interestPaid]
        have h1 : 0 ≤ bal * r := mul_nonneg (by linarith) hr
        have h2 := ih (m + 1) (stepBal r p ov m bal)
        linarith
      · rw [generateAux_of_le r p ec ov sd m (f + 1) bal (not_lt.mp h)]
        simp

theorem generateAux_interest_mono (r p : ℚ) (hr : 0 ≤ r) (ec₁ ec₂ : ℚ)
    (ov₁ ov₂ : Option ScenarioOverride) (sd : ℤ)
    (he : ∀ m, requestedExtra ov₂ m ≤ requestedExtra ov₁ m) :
    ∀ (fuel m : ℕ) (c b : ℚ), c ≤ b →
      ((generateAux r p ec₁ ov₁ sd m fuel c).map PaymentRow.interestPaid).sum ≤
        ((generateAux r p ec₂ ov₂ sd m fuel b).map PaymentRow.interestPaid).sum := by
  intro fuel
  induction fuel with
  | zero =>
      intro m c b _
      rw [generateAux_zero, generateAux_zero]
  | succ f ih =>
      intro m c b hcb
      by_cases hc : (0.01 : ℚ) < c
      · have hb : (0.01 : ℚ) < b := lt_of_lt_of_le hc hcb
        rw [generateAux_cons r p ec₁ ov₁ sd m f c hc,
          generateAux_cons r p ec₂ ov₂ sd m f b hb, List.map_cons, List.map_cons,
          List.sum_cons, List.sum_cons, stepRow_interestPaid, stepRow_interestPaid]
        have h1 : c * r ≤ b * r := mul_le_mul_of_nonneg_right hcb hr
        have h2 := ih (m + 1) _ _ (stepBal_mono r p hr ov₁ ov₂ m c b hcb (he m))
        linarith
      · rw [generateAux_of_le r p ec₁ ov₁ sd m (f + 1) c (not_lt.mp hc)]
        have := generateAux_interest_nonneg r p ec₂ hr ov₂ sd (f + 1) m b
        simpa using this

/-! ### The base scenario follows the exact annuity recurrence -/

theorem exactBal_zero (r p P : ℚ) : exactBal r p P 0 = P := rfl

theorem exactBal_succ (r p P : ℚ) (k : ℕ) :
    exactBal r p P (k + 1) = exactBal r p P k * (1 + r) - p := rfl

theorem stepBal_none_eq (r p : ℚ) (m : ℕ) (bal : ℚ)
    (h : 0 ≤ bal * (1 + r) - p) :
    stepBal r p none m bal = bal * (1 + r) - p := by
  rw [stepBal, requestedExtra_none, add_zero,
    min_eq_left (by linarith : p - bal * r ≤ bal)]
  ring

/-- A base-scenario run whose theoretical balances stay above the 0.01
epsilon (and non-negative one step further) emits one row per month of
fuel, with the stored balances following the exact annuity recurrence. -/
theorem generateAux_exact_run (r p P ec : ℚ) (sd : ℤ) :
    ∀ (fuel s : ℕ),
      (∀ j, j < fuel → (0.01 : ℚ) < exactBal r p P (s + j)) →
      (∀ j, j < fuel → 0 ≤ exactBal r p P (s + j + 1)) →
      (generateAux r p ec none sd (s + 1) fuel (exactBal r p P s)).map
          PaymentRow.remainingBalance =
        (List.range fuel).map (fun j => exactBal r p P (s + j + 1)) := by
  intro fuel
  induction fuel with
  | zero =>
      intro s _ _
      rw [generateAux_zero]
      simp
  | succ f ih =>
      intro s hthr hnn
      have h0 : (0.01 : ℚ) < exactBal r p P s := by
        have := hthr 0 (Nat.succ_pos f)
        simpa using this
      have hstep : stepBal r p none (s + 1) (exactBal r p P s) =
          exactBal r p P (s + 1) := by
        rw [stepBal_none_eq r p (s + 1) (exactBal r p P s)
            (by rw [← exactBal_succ]; simpa using hnn 0 (Nat.succ_pos f)),
          ← exactBal_succ]
      rw [generateAux_cons r p ec none sd (s + 1) f _ h0, List.map_cons,
        stepRow_remaining_eq_stepBal, hstep, List.range_succ_eq_map,
        List.map_cons]
      have htail := ih (s + 1)
        (fun j hj => by
          have := hthr (j + 1) (Nat.succ_lt_succ hj)
          have harith : s + (j + 1) = s + 1 + j := by omega
          rwa [harith] at this)
        (fun j hj => by
          have := hnn (j + 1) (Nat.succ_lt_succ hj)
          have harith : s + (j + 1) + 1 = s + 1 + j + 1 := by omega
          rwa [harith] at this)
      rw [htail, List.map_map]
      refine congrArg₂ List.cons ?_ ?_
      · show exactBal r p P (s + 1) = exactBal r p P (s + 0 + 1)
        exact congrArg (exactBal r p P) (by omega)
      · refine List.map_congr_left fun j _ => ?_
        show exactBal r p P (s + 1 + j + 1) = exactBal r p P (s + (j + 1) + 1)
        exact congrArg (exactBal r p P) (by omega)

theorem exactBal_closed (r p P : ℚ) (hr : r ≠ 0) :
    ∀ k : ℕ, exactBal r p P k = P * (1 + r) ^ k - p * ((1 + r) ^ k - 1) / r := by
  intro k
  induction k with
  | zero => simp [exactBal_zero]
  | succ j ih =>
      rw [exactBal_succ, ih, pow_succ]
      field_simp
      ring

theorem annuity_den_pos (r : ℚ) (N : ℕ) (hr : 0 < r) (hN : 1 ≤ N) :
    0 < (1 + r) ^ N - 1 :=
  sub_pos.mpr (one_lt_pow₀ (by linarith) (by omega))

theorem exactBal_formula (r p P : ℚ) (N : ℕ) (hr : 0 < r) (hN : 1 ≤ N)
    (hp : p = P * ((r * (1 + r) ^ N) / ((1 + r) ^ N - 1))) (k : ℕ) :
    exactBal r p P k = P * ((1 + r) ^ N - (1 + r) ^ k) / ((1 + r) ^ N - 1) := by
  have hd : (1 + r) ^ N - 1 ≠ 0 := ne_of_gt (annuity_den_pos r N hr hN)
  rw [exactBal_closed r p P (ne_of_gt hr), hp]
  field_simp
  ring

theorem exactBal_rate_zero (p P : ℚ) : ∀ k : ℕ, exactBal 0 p P k = P - k * p := by
  intro k
  induction k with
  | zero => simp [exactBal_zero]
  | succ j ih =>
      rw [exactBal_succ, ih]
      push_cast
      ring

/-- Under the hypotheses of the full-term run (positive principal,
non-negative rate, at least one month, and all theoretical balances
above the 0.01 epsilon before the final month), the base schedule has
exactly termMonths rows, its final stored balance is exactly 0, and its
principal payments sum exactly to the principal. -/
theorem base_run_facts (P R ec : ℚ) (N : ℕ) (sd : ℤ) (hP : 0 < P) (hR : 0 ≤ R)
    (hN : 1 ≤ N)
    (hthr : ∀ k, k < N →
      (0.01 : ℚ) < exactBal (R / 100 / 12) (calculateMonthlyPayment P R N) P k) :
    (generateAmortizationSchedule ⟨P, R, N, sd, ec⟩ none).length = N ∧
    finalBalance P (generateAmortizationSchedule ⟨P, R, N, sd, ec⟩ none) = 0 ∧
    ((generateAmortizationSchedule ⟨P, R, N, sd, ec⟩ none).map
        PaymentRow.principalPaid).sum = P := by
  have hrnn : 0 ≤ R / 100 / 12 := by positivity
  have hNQ : (0 : ℚ) < (N : ℚ) := by
    have : (1 : ℚ) ≤ (N : ℚ) := by exact_mod_cast hN
    linarith
  have hzero : exactBal (R / 100 / 12) (calculateMonthlyPayment P R N) P N = 0 ∧
      ∀ k, k ≤ N →
        0 ≤ exactBal (R / 100 / 12) (calculateMonthlyPayment P R N) P k := by
    by_cases hr0 : R / 100 / 12 = 0
    · have hp : calculateMonthlyPayment P R N = P / N := by
        simp only [calculateMonthlyPayment]
        rw [if_pos hr0]
      rw [hr0, hp]
      constructor
      · rw [exactBal_rate_zero]
        field_simp
      · intro k hk
        rw [exactBal_rate_zero]
        have hkN : (k : ℚ) ≤ (N : ℚ) := by exact_mod_cast hk
        rw [div_eq_mul_inv, ← mul_assoc]
        have h1 : (k : ℚ) * P * (N : ℚ)⁻¹ ≤ (N : ℚ) * P * (N : ℚ)⁻¹ := by
          have := mul_le_mul_of_nonneg_right
            (mul_le_mul_of_nonneg_right hkN (le_of_lt hP))
            (inv_nonneg.mpr (le_of_lt hNQ))
          exact this
        have h2 : (N : ℚ) * P * (N : ℚ)⁻¹ = P := by
          field_simp
        linarith
    · have hr : 0 < R / 100 / 12 := lt_of_le_of_ne hrnn (Ne.symm hr0)
      have hp : calculateMonthlyPayment P R N =
          P * ((R / 100 / 12 * (1 + R / 100 / 12) ^ N) /
            ((1 + R / 100 / 12) ^ N - 1)) := by
        simp only [calculateMonthlyPayment]
        rw [if_neg hr0]
      have hd := annuity_den_pos (R / 100 / 12) N hr hN
      constructor
      · rw [exactBal_formula (R / 100 / 12) _ P N hr hN hp N]
        simp
      · intro k hk
        rw [exactBal_formula (R / 100 / 12) _ P N hr hN hp k]
        have hpow : (1 + R / 100 / 12) ^ k ≤ (1 + R / 100 / 12) ^ N :=
          pow_le_pow_right₀ (by linarith) hk
        have hnum : 0 ≤ P * ((1 + R / 100 / 12) ^ N - (1 + R / 100 / 12) ^ k) :=
          mul_nonneg (le_of_lt hP) (by linarith)
        exact div_nonneg hnum (le_of_lt hd)
  have hrun := generateAux_exact_run (R / 100 / 12)
    (calculateMonthlyPayment P R N) P ec sd N 0
    (fun j hj => by simpa using hthr j hj)
    (fun j hj => hzero.2 (0 + j + 1) (by omega))
  have hgen : generateAmortizationSchedule ⟨P, R, N, sd, ec⟩ none =
      generateAux (R / 100 / 12) (calculateMonthlyPayment P R N) ec none sd
        (0 + 1) N (exactBal (R / 100 / 12) (calculateMonthlyPayment P R N) P 0) := by
    rfl
  have hmap : (generateAmortizationSchedule ⟨P, R, N, sd, ec⟩ none).map
      PaymentRow.remainingBalance =
      (List.range N).map
        (fun j => exactBal (R / 100 / 12) (calculateMonthlyPayment P R N) P
          (0 + j + 1)) := by
    rw [hgen]
    exact hrun
  have hlen : (generateAmortizationSchedule ⟨P, R, N, sd, ec⟩ none).length = N := by
    have := congrArg List.length hmap
    rwa [List.length_map, List.length_map, List.length_range] at this
  have hfin : finalBalance P (generateAmortizationSchedule ⟨P, R, N, sd, ec⟩ none)
      = 0 := by
    obtain ⟨M, rfl⟩ : ∃ M, N = M + 1 := ⟨N - 1, by omega⟩
    rw [finalBalance, hmap, List.range_succ, List.map_append, List.map_cons,
      List.map_nil, List.getLastD_concat]
    have harith : 0 + M + 1 = M + 1 := by omega
    rw [harith]
    exact hzero.1
  refine ⟨hlen, hfin, ?_⟩
  have hsum := generateAux_sum_principal (R / 100 / 12)
    (calculateMonthlyPayment P R N) ec none sd N (0 + 1)
    (exactBal (R / 100 / 12) (calculateMonthlyPayment P R N) P 0)
  rw [← hgen] at hsum
  rw [hsum]
  have hb0 : exactBal (R / 100 / 12) (calculateMonthlyPayment P R N) P 0 = P :=
    exactBal_zero _ _ _
  rw [hb0, hfin, sub_zero]

/-! ### Summary projections and schedule-level wrappers -/

theorem calculateSummary_monthsToPayoff (S : List PaymentRow)
    (B : Option (List PaymentRow)) :
    (calculateSummary S B).monthsToPayoff = S.length := by
  cases B <;> rfl

theorem calculateSummary_totalInterest (S : List PaymentRow)
    (B : Option (List PaymentRow)) :
    (calculateSummary S B).totalInterestPaid =
      (S.map PaymentRow.interestPaid).sum := by
  cases B <;> simp [calculateSummary, foldl_add_map]

theorem calculateSummary_totalPaid (S : List PaymentRow)
    (B : Option (List PaymentRow)) :
    (calculateSummary S B).totalPaid = (S.map PaymentRow.totalPayment).sum := by
  cases B <;> simp [calculateSummary, foldl_add_map]

theorem schedule_eq_aux (inputs : MortgageInputs) (ov : Option ScenarioOverride) :
    generateAmortizationSchedule inputs ov =
      generateAux (inputs.annualRate / 100 / 12)
        (calculateMonthlyPayment inputs.principal inputs.annualRate
          inputs.termMonths)
        inputs.extraMonthlyPayment ov inputs.startDate 1 inputs.termMonths
        inputs.principal := rfl

theorem schedule_rows (inputs : MortgageInputs) (ov : Option ScenarioOverride)
    (i : ℕ) (hi : i < (generateAmortizationSchedule inputs ov).length) :
    (rowAt (generateAmortizationSchedule inputs ov) i).basePayment =
      calculateMonthlyPayment inputs.principal inputs.annualRate
        inputs.termMonths ∧
    (rowAt (generateAmortizationSchedule inputs ov) i).month = i + 1 ∧
    (rowAt (generateAmortizationSchedule inputs ov) i).interestPaid =
      balBefore inputs.principal (generateAmortizationSchedule inputs ov) i *
        (inputs.annualRate / 100 / 12) ∧
    (rowAt (generateAmortizationSchedule inputs ov) i).principalPaid =
      min ((rowAt (generateAmortizationSchedule inputs ov) i).basePayment -
            (rowAt (generateAmortizationSchedule inputs ov) i).interestPaid +
            requestedExtra ov (i + 1))
        (balBefore inputs.principal (generateAmortizationSchedule inputs ov) i) ∧
    (rowAt (generateAmortizationSchedule inputs ov) i).extraPayment =
      (rowAt (generateAmortizationSchedule inputs ov) i).principalPaid -
        ((rowAt (generateAmortizationSchedule inputs ov) i).basePayment -
          (rowAt (generateAmortizationSchedule inputs ov) i).interestPaid) ∧
    (rowAt (generateAmortizationSchedule inputs ov) i).remainingBalance =
      balBefore inputs.principal (generateAmortizationSchedule inputs ov) i -
        (rowAt (generateAmortizationSchedule inputs ov) i).principalPaid ∧
    0 ≤ (rowAt (generateAmortizationSchedule inputs ov) i).remainingBalance := by
  rw [schedule_eq_aux] at hi ⊢
  have h := generateAux_rows (inputs.annualRate / 100 / 12)
    (calculateMonthlyPayment inputs.principal inputs.annualRate inputs.termMonths)
    inputs.extraMonthlyPayment ov inputs.startDate inputs.termMonths 1
    inputs.principal i hi
  have harith : 1 + i = i + 1 := by omega
  rw [harith] at h
  exact h

theorem schedule_extra_unclamped (inputs : MortgageInputs)
    (ov : Option ScenarioOverride) (i : ℕ)
    (hi : i + 1 < (generateAmortizationSchedule inputs ov).length) :
    (rowAt (generateAmortizationSchedule inputs ov) i).extraPayment =
      requestedExtra ov (i + 1) := by
  rw [schedule_eq_aux] at hi ⊢
  have h := generateAux_extra_unclamped (inputs.annualRate / 100 / 12)
    (calculateMonthlyPayment inputs.principal inputs.annualRate inputs.termMonths)
    inputs.extraMonthlyPayment ov inputs.startDate inputs.termMonths 1
    inputs.principal i hi
  have harith : 1 + i = i + 1 := by omega
  rwa [harith] at h

/-! ### Concrete evaluations -/

/-- A schedule whose very first row already drives the balance to the
stopping threshold is that single row. -/
theorem gen_eval_one (P R ec : ℚ) (N : ℕ) (sd : ℤ) (ov : Option ScenarioOverride)
    (f : ℕ) (hNf : N = f + 1) (hP : (0.01 : ℚ) < P)
    (hstop : stepBal (R / 100 / 12) (calculateMonthlyPayment P R N) ov 1 P ≤ 0.01) :
    generateAmortizationSchedule ⟨P, R, N, sd, ec⟩ ov =
      [stepRow (R / 100 / 12) (calculateMonthlyPayment P R N) ec ov sd 1 P] := by
  subst hNf
  rw [schedule_eq_aux]
  rw [generateAux_cons _ _ _ _ _ 1 f P hP,
    generateAux_of_le _ _ _ _ _ (1 + 1) f _ hstop]

/-- The concrete monthly payment of the 300000 / 6.5% / 360-month loan,
as an exact rational expression. -/
theorem concretePayment_eq :
    calculateMonthlyPayment 300000 6.5 360 =
      300000 * ((6.5 / 100 / 12 * (1 + 6.5 / 100 / 12) ^ 360) /
        ((1 + 6.5 / 100 / 12) ^ 360 - 1)) := by
  simp only [calculateMonthlyPayment]
  rw [if_neg (by norm_num : ¬((6.5 : ℚ) / 100 / 12 = 0))]

/-- All theoretical balances of the concrete base loan stay above the
0.01 stopping threshold before the final month. -/
theorem concrete_threshold :
    ∀ k, k < 360 →
      (0.01 : ℚ) < exactBal (6.5 / 100 / 12)
        (calculateMonthlyPayment 300000 6.5 360) 300000 k := by
  intro k hk
  have hr : (0 : ℚ) < 6.5 / 100 / 12 := by norm_num
  have hform := exactBal_formula (6.5 / 100 / 12)
    (calculateMonthlyPayment 300000 6.5 360) 300000 360 hr (by norm_num)
    concretePayment_eq
  rw [hform k]
  have hd : (0 : ℚ) < (1 + 6.5 / 100 / 12) ^ 360 - 1 :=
    annuity_den_pos _ 360 hr (by norm_num)
  have hpow : ((1 + 6.5 / 100 / 12 : ℚ)) ^ k ≤ (1 + 6.5 / 100 / 12) ^ 359 :=
    pow_le_pow_right₀ (by norm_num) (by omega)
  have hmono : 300000 * ((1 + 6.5 / 100 / 12 : ℚ) ^ 360 -
        (1 + 6.5 / 100 / 12) ^ 359) / ((1 + 6.5 / 100 / 12) ^ 360 - 1) ≤
      300000 * ((1 + 6.5 / 100 / 12) ^ 360 - (1 + 6.5 / 100 / 12) ^ k) /
        ((1 + 6.5 / 100 / 12) ^ 360 - 1) := by
    apply div_le_div_of_nonneg_right ?_ (le_of_lt hd)
    have := sub_le_sub_left hpow ((1 + 6.5 / 100 / 12 : ℚ) ^ 360)
    nlinarith
  have hbase : (0.01 : ℚ) < 300000 * ((1 + 6.5 / 100 / 12 : ℚ) ^ 360 -
      (1 + 6.5 / 100 / 12) ^ 359) / ((1 + 6.5 / 100 / 12) ^ 360 - 1) := by
    norm_num
  linarith

/-! ### Small concrete schedules used to exercise the general theorems -/

theorem generateAux_cons_of (r p ec : ℚ) (ov : Option ScenarioOverride) (sd : ℤ)
    (m fuel f : ℕ) (bal : ℚ) (hf : fuel = f + 1) (h : (0.01 : ℚ) < bal) :
    generateAux r p ec ov sd m fuel bal =
      stepRow r p ec ov sd m bal ::
        generateAux r p ec ov sd (m + 1) f (stepBal r p ov m bal) := by
  subst hf
  exact generateAux_cons r p ec ov sd m f bal h

theorem tiny_payment : calculateMonthlyPayment 100 0 1 = 100 := by
  simp only [calculateMonthlyPayment]
  norm_num

theorem tiny_schedule :
    generateAmortizationSchedule ⟨100, 0, 1, 0, 0⟩ none =
      [stepRow (0 / 100 / 12) (calculateMonthlyPayment 100 0 1) 0 none 0 1 100] := by
  apply gen_eval_one 100 0 0 1 0 none 0 rfl (by norm_num)
  rw [stepBal, requestedExtra_none, tiny_payment]
  norm_num

theorem tiny2_payment : calculateMonthlyPayment 100 0 2 = 50 := by
  simp only [calculateMonthlyPayment]
  norm_num

theorem tiny2_stepBal :
    stepBal (0 / 100 / 12) (calculateMonthlyPayment 100 0 2) none 1 100 = 50 := by
  rw [stepBal, requestedExtra_none, tiny2_payment]
  norm_num

theorem tiny2_schedule :
    generateAmortizationSchedule ⟨100, 0, 2, 0, 0⟩ none =
      [stepRow (0 / 100 / 12) (calculateMonthlyPayment 100 0 2) 0 none 0 1 100,
       stepRow (0 / 100 / 12) (calculateMonthlyPayment 100 0 2) 0 none 0 (1 + 1) 50] := by
  rw [schedule_eq_aux]
  show generateAux ((0 : ℚ) / 100 / 12) (calculateMonthlyPayment 100 0 2) 0 none 0
    1 2 100 = _
  rw [generateAux_cons_of _ _ _ _ _ 1 2 1 100 rfl (by norm_num), tiny2_stepBal,
    generateAux_cons_of _ _ _ _ _ (1 + 1) 1 0 50 rfl (by norm_num),
    generateAux_zero]

/-! ### The claims -/

/-- C1: in every generated schedule, each row satisfies
principalPaid + interestPaid = basePayment + extraPayment exactly, its
stored remainingBalance is the previous balance (the principal before
row 0) minus its principalPaid, and the stored balance is never
negative. -/
theorem claim1_row_invariants (inputs : MortgageInputs)
    (ov : Option ScenarioOverride) (i : ℕ)
    (hi : i < (generateAmortizationSchedule inputs ov).length) :
    (rowAt (generateAmortizationSchedule inputs ov) i).principalPaid +
        (rowAt (generateAmortizationSchedule inputs ov) i).interestPaid =
      (rowAt (generateAmortizationSchedule inputs ov) i).basePayment +
        (rowAt (generateAmortizationSchedule inputs ov) i).extraPayment ∧
    (rowAt (generateAmortizationSchedule inputs ov) i).remainingBalance =
      balBefore inputs.principal (generateAmortizationSchedule inputs ov) i -
        (rowAt (generateAmortizationSchedule inputs ov) i).principalPaid ∧
    0 ≤ (rowAt (generateAmortizationSchedule inputs ov) i).remainingBalance := by
  obtain ⟨hbp, hm, hip, hpp, hep, hrb, hnn⟩ := schedule_rows inputs ov i hi
  exact ⟨by linarith, hrb, hnn⟩

theorem claim1_row_invariants_witness :
    0 < (generateAmortizationSchedule ⟨100, 0, 1, 0, 0⟩ none).length ∧
    ((rowAt (generateAmortizationSchedule ⟨100, 0, 1, 0, 0⟩ none) 0).principalPaid +
        (rowAt (generateAmortizationSchedule ⟨100, 0, 1, 0, 0⟩ none) 0).interestPaid =
      (rowAt (generateAmortizationSchedule ⟨100, 0, 1, 0, 0⟩ none) 0).basePayment +
        (rowAt (generateAmortizationSchedule ⟨100, 0, 1, 0, 0⟩ none) 0).extraPayment ∧
    (rowAt (generateAmortizationSchedule ⟨100, 0, 1, 0, 0⟩ none) 0).remainingBalance =
      balBefore 100 (generateAmortizationSchedule ⟨100, 0, 1, 0, 0⟩ none) 0 -
        (rowAt (generateAmortizationSchedule ⟨100, 0, 1, 0, 0⟩ none) 0).principalPaid ∧
    0 ≤ (rowAt (generateAmortizationSchedule ⟨100, 0, 1, 0, 0⟩ none) 0).remainingBalance) := by
  have hlen : 0 < (generateAmortizationSchedule ⟨100, 0, 1, 0, 0⟩ none).length := by
    rw [tiny_schedule]
    norm_num
  exact ⟨hlen, claim1_row_invariants ⟨100, 0, 1, 0, 0⟩ none 0 hlen⟩

/-- C2: for a term of at least one month, calculateMonthlyPayment
returns P / N when the monthly rate R/100/12 is exactly zero and
otherwise the annuity formula P · [r(1+r)^N] / [(1+r)^N − 1]; it agrees
with the formula exactly as the spec words it. -/
theorem claim2_payment_formula (P R : ℚ) (N : ℕ) (_hN : 1 ≤ N) :
    (R / 100 / 12 = 0 → calculateMonthlyPayment P R N = P / N) ∧
    (R / 100 / 12 ≠ 0 →
      calculateMonthlyPayment P R N =
        P * (R / 100 / 12 * (1 + R / 100 / 12) ^ N) /
          ((1 + R / 100 / 12) ^ N - 1)) ∧
    calculateMonthlyPayment P R N = specMonthlyPayment P R N := by
  refine ⟨fun h => ?_, fun h => ?_, ?_⟩
  · simp only [calculateMonthlyPayment]
    rw [if_pos h]
  · simp only [calculateMonthlyPayment]
    rw [if_neg h, ← mul_div_assoc]
  · simp only [calculateMonthlyPayment, specMonthlyPayment]
    by_cases h : R / 100 / 12 = 0
    · rw [if_pos h, if_pos h]
    · rw [if_neg h, if_neg h, ← mul_div_assoc]

theorem claim2_payment_formula_witness :
    1 ≤ 4 ∧
    (((0 : ℚ) / 100 / 12 = 0 → calculateMonthlyPayment 100 0 4 = 100 / (4 : ℕ)) ∧
    ((0 : ℚ) / 100 / 12 ≠ 0 →
      calculateMonthlyPayment 100 0 4 =
        100 * ((0 : ℚ) / 100 / 12 * (1 + (0 : ℚ) / 100 / 12) ^ (4 : ℕ)) /
          ((1 + (0 : ℚ) / 100 / 12) ^ (4 : ℕ) - 1)) ∧
    calculateMonthlyPayment 100 0 4 = specMonthlyPayment 100 0 4) :=
  ⟨by norm_num, claim2_payment_formula 100 0 4 (by norm_num)⟩

/-- C6: calculateSummary returns the interest sum, payment sum and row
count of its schedule; with a baseline it reports the baseline interest
sum minus this schedule's and the baseline row count minus this
schedule's, and without a baseline both savings are 0. -/
theorem claim6_summary_fields (S B : List PaymentRow) :
    (calculateSummary S (some B)).totalInterestPaid =
      (S.map PaymentRow.interestPaid).sum ∧
    (calculateSummary S (some B)).totalPaid =
      (S.map PaymentRow.totalPayment).sum ∧
    (calculateSummary S (some B)).monthsToPayoff = S.length ∧
    (calculateSummary S (some B)).interestSaved =
      (B.map PaymentRow.interestPaid).sum - (S.map PaymentRow.interestPaid).sum ∧
    (calculateSummary S (some B)).monthsSaved =
      (B.length : ℤ) - (S.length : ℤ) ∧
    (calculateSummary S none).totalInterestPaid =
      (S.map PaymentRow.interestPaid).sum ∧
    (calculateSummary S none).totalPaid = (S.map PaymentRow.totalPayment).sum ∧
    (calculateSummary S none).monthsToPayoff = S.length ∧
    (calculateSummary S none).interestSaved = 0 ∧
    (calculateSummary S none).monthsSaved = 0 := by
  refine ⟨calculateSummary_totalInterest S (some B),
    calculateSummary_totalPaid S (some B),
    calculateSummary_monthsToPayoff S (some B), ?_, rfl,
    calculateSummary_totalInterest S none, calculateSummary_totalPaid S none,
    calculateSummary_monthsToPayoff S none, rfl, rfl⟩
  simp [calculateSummary, foldl_add_map]

/-- C7 counterexample: a loan with positive principal 1/200 (below the
0.01 epsilon), rate 5 and a 12-month term produces an empty schedule,
contradicting the claim that every valid positive-principal loan yields
a non-empty schedule. -/
theorem claim7_termination_cex :
    (0 : ℚ) < 1 / 200 ∧ 1 ≤ (12 : ℕ) ∧
    generateAmortizationSchedule ⟨1 / 200, 5, 12, 0, 0⟩ none = [] := by
  refine ⟨by norm_num, by norm_num, ?_⟩
  rw [schedule_eq_aux]
  show generateAux ((5 : ℚ) / 100 / 12) (calculateMonthlyPayment (1 / 200) 5 12) 0
    none 0 1 12 (1 / 200) = []
  exact generateAux_of_le _ _ _ _ _ _ _ _ (by norm_num)

/-- C7 (amended): every schedule has at most termMonths rows; it has
fewer than termMonths rows exactly when some running balance within the
first termMonths values (the principal, then each stored balance)
already sits at or below the 0.01 epsilon; and the schedule is non-empty
whenever the principal exceeds the epsilon and the term is at least one
month. -/
theorem claim7_termination (inputs : MortgageInputs)
    (ov : Option ScenarioOverride) :
    (generateAmortizationSchedule inputs ov).length ≤ inputs.termMonths ∧
    ((generateAmortizationSchedule inputs ov).length < inputs.termMonths ↔
      ∃ b ∈ (inputs.principal :: (generateAmortizationSchedule inputs ov).map
          PaymentRow.remainingBalance).take inputs.termMonths, b ≤ 0.01) ∧
    (0.01 < inputs.principal → 1 ≤ inputs.termMonths →
      generateAmortizationSchedule inputs ov ≠ []) := by
  refine ⟨?_, ?_, ?_⟩
  · rw [schedule_eq_aux]
    exact generateAux_length_le _ _ _ _ _ _ _ _
  · rw [schedule_eq_aux]
    exact generateAux_length_lt_iff _ _ _ _ _ _ _ _
  · intro hp hN
    obtain ⟨f, hf⟩ : ∃ f, inputs.termMonths = f + 1 := ⟨inputs.termMonths - 1, by omega⟩
    rw [schedule_eq_aux, generateAux_cons_of _ _ _ _ _ 1 inputs.termMonths f
      inputs.principal hf hp]
    exact List.cons_ne_nil _ _

theorem claim7_termination_witness :
    (0.01 : ℚ) < 100 ∧ 1 ≤ (1 : ℕ) ∧
    generateAmortizationSchedule ⟨100, 0, 1, 0, 0⟩ none ≠ [] :=
  ⟨by norm_num, by norm_num,
    (claim7_termination ⟨100, 0, 1, 0, 0⟩ none).2.2 (by norm_num) (by norm_num)⟩

/-- C10: on every row of a generated schedule except the last one, the
stored extraPayment equals exactly the extra requested for that period
(recurring extra plus that period's lump sum, defaulting to 0), the row
of 0-based index i belonging to period i + 1. -/
theorem claim10_extra_exact (inputs : MortgageInputs)
    (ov : Option ScenarioOverride) (i : ℕ)
    (hi : i + 1 < (generateAmortizationSchedule inputs ov).length) :
    (rowAt (generateAmortizationSchedule inputs ov) i).month = i + 1 ∧
    (rowAt (generateAmortizationSchedule inputs ov) i).extraPayment =
      requestedExtra ov (i + 1) := by
  have h1 := (schedule_rows inputs ov i (by omega)).2.1
  exact ⟨h1, schedule_extra_unclamped inputs ov i hi⟩

theorem claim10_extra_exact_witness :
    0 + 1 < (generateAmortizationSchedule ⟨100, 0, 2, 0, 0⟩ none).length ∧
    ((rowAt (generateAmortizationSchedule ⟨100, 0, 2, 0, 0⟩ none) 0).month = 0 + 1 ∧
    (rowAt (generateAmortizationSchedule ⟨100, 0, 2, 0, 0⟩ none) 0).extraPayment =
      requestedExtra none (0 + 1)) := by
  have hlen : 0 + 1 < (generateAmortizationSchedule ⟨100, 0, 2, 0, 0⟩ none).length := by
    rw [tiny2_schedule]
    norm_num
  exact ⟨hlen, claim10_extra_exact ⟨100, 0, 2, 0, 0⟩ none 0 hlen⟩

/-- C5: for a loan with non-negative rate and a spec-conformant override
(non-negative recurring extra and lump sums, at least one of them
positive), the override schedule pays off in at most as many months as
the base schedule and accrues at most as much total interest. -/
theorem claim5_monotonicity (inputs : MortgageInputs) (o : ScenarioOverride)
    (b₁ b₂ : Option (List PaymentRow)) (hR : 0 ≤ inputs.annualRate)
    (hE : 0 ≤ o.extraMonthlyPrincipal) (hL : ∀ m, 0 ≤ o.lumpSumPayments m)
    (_hpos : 0 < o.extraMonthlyPrincipal ∨ ∃ m, 0 < o.lumpSumPayments m) :
    (calculateSummary (generateAmortizationSchedule inputs (some o))
        b₁).monthsToPayoff ≤
      (calculateSummary (generateAmortizationSchedule inputs none)
        b₂).monthsToPayoff ∧
    (calculateSummary (generateAmortizationSchedule inputs (some o))
        b₁).totalInterestPaid ≤
      (calculateSummary (generateAmortizationSchedule inputs none)
        b₂).totalInterestPaid := by
  have hr : 0 ≤ inputs.annualRate / 100 / 12 := by positivity
  have he : ∀ m, requestedExtra none m ≤ requestedExtra (some o) m := by
    intro m
    rw [requestedExtra_none, requestedExtra_some]
    have := hL m
    linarith
  constructor
  · rw [calculateSummary_monthsToPayoff, calculateSummary_monthsToPayoff,
      schedule_eq_aux, schedule_eq_aux]
    exact generateAux_length_mono _ _ hr _ _ _ _ _ he _ _ _ _ le_rfl
  · rw [calculateSummary_totalInterest, calculateSummary_totalInterest,
      schedule_eq_aux, schedule_eq_aux]
    exact generateAux_interest_mono _ _ hr _ _ _ _ _ he _ _ _ _ le_rfl

theorem claim5_monotonicity_witness :
    (0 : ℚ) ≤ 0 ∧ (0 : ℚ) ≤ 50 ∧ (∀ _ : ℕ, (0 : ℚ) ≤ 0) ∧
    ((0 : ℚ) < 50 ∨ ∃ _ : ℕ, (0 : ℚ) < 0) ∧
    ((calculateSummary (generateAmortizationSchedule ⟨100, 0, 1, 0, 0⟩
          (some ⟨50, fun _ => 0⟩)) none).monthsToPayoff ≤
      (calculateSummary (generateAmortizationSchedule ⟨100, 0, 1, 0, 0⟩ none)
        none).monthsToPayoff ∧
    (calculateSummary (generateAmortizationSchedule ⟨100, 0, 1, 0, 0⟩
          (some ⟨50, fun _ => 0⟩)) none).totalInterestPaid ≤
      (calculateSummary (generateAmortizationSchedule ⟨100, 0, 1, 0, 0⟩ none)
        none).totalInterestPaid) :=
  ⟨le_rfl, by norm_num, fun _ => le_rfl, Or.inl (by norm_num),
    claim5_monotonicity ⟨100, 0, 1, 0, 0⟩ ⟨50, fun _ => 0⟩ none none le_rfl
      (by norm_num) (fun _ => le_rfl) (Or.inl (by norm_num))⟩

/-- C3: the applied principal of every row is the clamp
min(basePayment − interest + requested extra, balance before payment)
and the stored extraPayment is the applied principal minus the unclamped
base principal portion; and on the 300000 / 6.5% / 360-month loan with a
400000 lump sum at month 1, the schedule is a single row whose stored
balance is 0 and whose extraPayment is the balance before payment minus
the base principal portion — not 400000. -/
theorem claim3_lump_clamp :
    (∀ (inputs : MortgageInputs) (ov : Option ScenarioOverride) (i : ℕ),
      i < (generateAmortizationSchedule inputs ov).length →
      (rowAt (generateAmortizationSchedule inputs ov) i).principalPaid =
        min ((rowAt (generateAmortizationSchedule inputs ov) i).basePayment -
              (rowAt (generateAmortizationSchedule inputs ov) i).interestPaid +
              requestedExtra ov (i + 1))
          (balBefore inputs.principal (generateAmortizationSchedule inputs ov) i) ∧
      (rowAt (generateAmortizationSchedule inputs ov) i).extraPayment =
        (rowAt (generateAmortizationSchedule inputs ov) i).principalPaid -
          ((rowAt (generateAmortizationSchedule inputs ov) i).basePayment -
            (rowAt (generateAmortizationSchedule inputs ov) i).interestPaid)) ∧
    (∀ (sd : ℤ) (ec : ℚ),
      (lumpSchedule sd ec).length = 1 ∧
      (rowAt (lumpSchedule sd ec) 0).remainingBalance = 0 ∧
      (rowAt (lumpSchedule sd ec) 0).extraPayment =
        300000 - (calculateMonthlyPayment 300000 6.5 360 -
          300000 * (6.5 / 100 / 12)) ∧
      (rowAt (lumpSchedule sd ec) 0).extraPayment ≠ 400000) := by
  constructor
  · intro inputs ov i hi
    obtain ⟨_, _, _, hpp, hep, _, _⟩ := schedule_rows inputs ov i hi
    exact ⟨hpp, hep⟩
  · intro sd ec
    have hre : requestedExtra (some lumpOverride) 1 = 400000 := by
      rw [requestedExtra_some]
      simp [lumpOverride]
    have hmin : min (calculateMonthlyPayment 300000 6.5 360 -
          300000 * (6.5 / 100 / 12) + requestedExtra (some lumpOverride) 1)
        300000 = 300000 := by
      rw [hre]
      apply min_eq_right
      rw [concretePayment_eq]
      norm_num
    have hstop : stepBal (6.5 / 100 / 12) (calculateMonthlyPayment 300000 6.5 360)
        (some lumpOverride) 1 300000 ≤ 0.01 := by
      rw [stepBal, hmin]
      norm_num
    have hS : lumpSchedule sd ec =
        [stepRow (6.5 / 100 / 12) (calculateMonthlyPayment 300000 6.5 360) ec
          (some lumpOverride) sd 1 300000] := by
      rw [lumpSchedule]
      exact gen_eval_one 300000 6.5 ec 360 sd (some lumpOverride) 359 rfl
        (by norm_num) hstop
    refine ⟨by rw [hS]; rfl, ?_, ?_, ?_⟩
    · rw [hS, rowAt_cons_zero, stepRow_remaining_eq_stepBal, stepBal, hmin]
      norm_num
    · rw [hS, rowAt_cons_zero, stepRow_extraPayment, hmin]
    · rw [hS, rowAt_cons_zero, stepRow_extraPayment, hmin, concretePayment_eq]
      norm_num

theorem claim3_lump_clamp_witness :
    0 < (generateAmortizationSchedule ⟨100, 0, 1, 0, 0⟩ none).length ∧
    ((rowAt (generateAmortizationSchedule ⟨100, 0, 1, 0, 0⟩ none) 0).principalPaid =
      min ((rowAt (generateAmortizationSchedule ⟨100, 0, 1, 0, 0⟩ none) 0).basePayment -
            (rowAt (generateAmortizationSchedule ⟨100, 0, 1, 0, 0⟩ none) 0).interestPaid +
            requestedExtra none (0 + 1))
        (balBefore 100 (generateAmortizationSchedule ⟨100, 0, 1, 0, 0⟩ none) 0) ∧
    (rowAt (generateAmortizationSchedule ⟨100, 0, 1, 0, 0⟩ none) 0).extraPayment =
      (rowAt (generateAmortizationSchedule ⟨100, 0, 1, 0, 0⟩ none) 0).principalPaid -
        ((rowAt (generateAmortizationSchedule ⟨100, 0, 1, 0, 0⟩ none) 0).basePayment -
          (rowAt (generateAmortizationSchedule ⟨100, 0, 1, 0, 0⟩ none) 0).interestPaid)) := by
  have hlen : 0 < (generateAmortizationSchedule ⟨100, 0, 1, 0, 0⟩ none).length := by
    rw [tiny_schedule]
    norm_num
  exact ⟨hlen, claim3_lump_clamp.1 ⟨100, 0, 1, 0, 0⟩ none 0 hlen⟩

/-- C4 counterexample: the loan with principal 1/50, zero rate and a
2-month term stops after one row at the 0.01 epsilon with stored balance
1/100; its principal payments sum to 1/100, not the principal, so the
claim fails as stated for this positive-principal loan. -/
theorem claim4_conservation_cex :
    ¬ (|((generateAmortizationSchedule ⟨1 / 50, 0, 2, 0, 0⟩ none).map
            PaymentRow.principalPaid).sum - 1 / 50| ≤ 1 / 1000000 * (1 / 50) ∧
       finalBalance (1 / 50)
          (generateAmortizationSchedule ⟨1 / 50, 0, 2, 0, 0⟩ none) = 0) := by
  have hp : calculateMonthlyPayment (1 / 50) 0 2 = 1 / 100 := by
    simp only [calculateMonthlyPayment]
    norm_num
  have hstop : stepBal ((0 : ℚ) / 100 / 12) (calculateMonthlyPayment (1 / 50) 0 2)
      none 1 (1 / 50) ≤ 0.01 := by
    rw [stepBal, requestedExtra_none, hp]
    norm_num
  have hS := gen_eval_one (1 / 50) 0 0 2 0 none 1 rfl (by norm_num) hstop
  rintro ⟨_, h2⟩
  rw [hS, finalBalance, List.map_cons, List.map_nil, List.getLastD_cons,
    List.getLastD_nil, stepRow_remaining_eq_stepBal, stepBal,
    requestedExtra_none, hp] at h2
  norm_num at h2

/-- C4 (amended): for every loan with positive principal, non-negative
rate and term N ≥ 1 whose theoretical base-scenario balances stay above
the 0.01 stopping epsilon before every one of the N periods, the base
schedule's principal payments sum exactly to the principal (hence within
any relative tolerance), its final stored balance is exactly 0, and it
runs the full N months. -/
theorem claim4_conservation (P R ec : ℚ) (N : ℕ) (sd : ℤ) (hP : 0 < P)
    (hR : 0 ≤ R) (hN : 1 ≤ N)
    (hthr : ∀ k, k < N →
      (0.01 : ℚ) < exactBal (R / 100 / 12) (calculateMonthlyPayment P R N) P k) :
    ((generateAmortizationSchedule ⟨P, R, N, sd, ec⟩ none).map
        PaymentRow.principalPaid).sum = P ∧
    finalBalance P (generateAmortizationSchedule ⟨P, R, N, sd, ec⟩ none) = 0 ∧
    (generateAmortizationSchedule ⟨P, R, N, sd, ec⟩ none).length = N := by
  obtain ⟨h1, h2, h3⟩ := base_run_facts P R ec N sd hP hR hN hthr
  exact ⟨h3, h2, h1⟩

theorem claim4_conservation_witness :
    (0 : ℚ) < 100 ∧ (0 : ℚ) ≤ 0 ∧ 1 ≤ (1 : ℕ) ∧
    (∀ k, k < 1 →
      (0.01 : ℚ) < exactBal ((0 : ℚ) / 100 / 12)
        (calculateMonthlyPayment 100 0 1) 100 k) ∧
    (((generateAmortizationSchedule ⟨100, 0, 1, 0, 0⟩ none).map
        PaymentRow.principalPaid).sum = 100 ∧
    finalBalance 100 (generateAmortizationSchedule ⟨100, 0, 1, 0, 0⟩ none) = 0 ∧
    (generateAmortizationSchedule ⟨100, 0, 1, 0, 0⟩ none).length = 1) := by
  have hthr : ∀ k, k < 1 →
      (0.01 : ℚ) < exactBal ((0 : ℚ) / 100 / 12)
        (calculateMonthlyPayment 100 0 1) 100 k := by
    intro k hk
    have hk0 : k = 0 := by omega
    subst hk0
    rw [exactBal_zero]
    norm_num
  exact ⟨by norm_num, le_rfl, le_rfl, hthr,
    claim4_conservation 100 0 0 1 0 (by norm_num) le_rfl le_rfl hthr⟩

/-- C8: for positive principal, non-negative rate and at least one
month, the monthly payment times the term covers the principal, and at
zero rate the payment is exactly P / N so the product is exactly P. -/
theorem claim8_payment_covers (P R : ℚ) (N : ℕ) (hP : 0 < P) (hR : 0 ≤ R)
    (hN : 1 ≤ N) :
    P ≤ calculateMonthlyPayment P R N * N ∧
    (R = 0 → calculateMonthlyPayment P R N = P / N ∧
      calculateMonthlyPayment P R N * N = P) := by
  have hNQ : (0 : ℚ) < (N : ℚ) := by
    have : (1 : ℚ) ≤ (N : ℚ) := by exact_mod_cast hN
    linarith
  constructor
  · by_cases hr0 : R / 100 / 12 = 0
    · have hp : calculateMonthlyPayment P R N = P / N := by
        simp only [calculateMonthlyPayment]
        rw [if_pos hr0]
      rw [hp, div_mul_cancel₀ P (ne_of_gt hNQ)]
    · have hr : 0 < R / 100 / 12 := lt_of_le_of_ne (by positivity) (Ne.symm hr0)
      have hp : calculateMonthlyPayment P R N =
          P * ((R / 100 / 12 * (1 + R / 100 / 12) ^ N) /
            ((1 + R / 100 / 12) ^ N - 1)) := by
        simp only [calculateMonthlyPayment]
        rw [if_neg hr0]
      have hD : 0 < (1 + R / 100 / 12) ^ N - 1 :=
        annuity_den_pos (R / 100 / 12) N hr hN
      have hgeom : (∑ i ∈ Finset.range N, (1 + R / 100 / 12) ^ i) *
          ((1 + R / 100 / 12) - 1) = (1 + R / 100 / 12) ^ N - 1 :=
        geom_sum_mul (1 + R / 100 / 12) N
      have hsum : (∑ i ∈ Finset.range N, (1 + R / 100 / 12) ^ i) ≤
          (N : ℚ) * (1 + R / 100 / 12) ^ N := by
        have h1 := Finset.sum_le_card_nsmul (Finset.range N)
          (fun i => (1 + R / 100 / 12) ^ i) ((1 + R / 100 / 12) ^ N)
          (fun i hi => pow_le_pow_right₀ (by linarith)
            (le_of_lt (Finset.mem_range.mp hi)))
        rwa [Finset.card_range, nsmul_eq_mul] at h1
      have hkey : (1 + R / 100 / 12) ^ N - 1 ≤
          (N : ℚ) * (R / 100 / 12 * (1 + R / 100 / 12) ^ N) := by
        have h2 : (1 + R / 100 / 12) ^ N - 1 =
            R / 100 / 12 * (∑ i ∈ Finset.range N, (1 + R / 100 / 12) ^ i) := by
          rw [← hgeom]
          ring
        rw [h2]
        calc R / 100 / 12 * (∑ i ∈ Finset.range N, (1 + R / 100 / 12) ^ i) ≤
              R / 100 / 12 * ((N : ℚ) * (1 + R / 100 / 12) ^ N) :=
                mul_le_mul_of_nonneg_left hsum (le_of_lt hr)
          _ = (N : ℚ) * (R / 100 / 12 * (1 + R / 100 / 12) ^ N) := by ring
      rw [hp]
      have hre : P * ((R / 100 / 12 * (1 + R / 100 / 12) ^ N) /
            ((1 + R / 100 / 12) ^ N - 1)) * N =
          P * ((N : ℚ) * (R / 100 / 12 * (1 + R / 100 / 12) ^ N)) /
            ((1 + R / 100 / 12) ^ N - 1) := by
        ring
      rw [hre, le_div_iff₀ hD]
      exact le_trans (mul_le_mul_of_nonneg_left hkey (le_of_lt hP)) le_rfl
  · intro h
    have hr0 : R / 100 / 12 = 0 := by
      rw [h]
      norm_num
    have hp : calculateMonthlyPayment P R N = P / N := by
      simp only [calculateMonthlyPayment]
      rw [if_pos hr0]
    exact ⟨hp, by rw [hp, div_mul_cancel₀ P (ne_of_gt hNQ)]⟩

theorem claim8_payment_covers_witness :
    (0 : ℚ) < 100 ∧ (0 : ℚ) ≤ 0 ∧ 1 ≤ (4 : ℕ) ∧
    (100 ≤ calculateMonthlyPayment 100 0 4 * ((4 : ℕ) : ℚ) ∧
    ((0 : ℚ) = 0 → calculateMonthlyPayment 100 0 4 = 100 / ((4 : ℕ) : ℚ) ∧
      calculateMonthlyPayment 100 0 4 * ((4 : ℕ) : ℚ) = 100)) :=
  ⟨by norm_num, le_rfl, by norm_num,
    claim8_payment_covers 100 0 4 (by norm_num) le_rfl (by norm_num)⟩

/-- C9: the 300000 / 6.5% / 360-month loan has monthly payment within
0.01 of 1896.20, and its base schedule (any start date and add-on cost)
has exactly 360 rows with final stored balance exactly 0. -/
theorem claim9_concrete_loan :
    |calculateMonthlyPayment 300000 6.5 360 - 1896.20| ≤ 0.01 ∧
    ∀ (sd : ℤ) (ec : ℚ),
      (generateAmortizationSchedule ⟨300000, 6.5, 360, sd, ec⟩ none).length = 360 ∧
      finalBalance 300000
        (generateAmortizationSchedule ⟨300000, 6.5, 360, sd, ec⟩ none) = 0 := by
  constructor
  · rw [concretePayment_eq, abs_sub_le_iff]
    constructor <;> norm_num
  · intro sd ec
    obtain ⟨h1, h2, _⟩ := base_run_facts 300000 6.5 ec 360 sd (by norm_num)
      (by norm_num) (by norm_num) concrete_threshold
    exact ⟨h1, h2⟩

end MortgageExplorer

